import Mathlib

/-
Verification of the CenterOfMass particle library (CenterOfMass.py).

Modelling conventions for the shallow embedding:

- The arbitrary-precision decimal type (Python decimal.Decimal) is modelled
  as the exact rationals ℚ.  Addition, subtraction, multiplication and
  division of decimals are modelled as exact rational arithmetic; division
  by zero, which raises DivisionByZero or InvalidOperation in the source,
  is modelled by an Option-valued division decDiv.  NaN and Infinity
  decimals are outside the model: the data-model invariant states all
  stored components are finite numbers.

- IEEE-754 double values are binary rationals, so a float input is
  modelled by its exact rational value; Decimal.from_float performs an
  exact binary-to-decimal conversion and is therefore modelled as the
  identity on that value.  Floating-point transcendental steps (sin, cos,
  sqrt) are modelled as the exact real functions on ℝ; this is the
  idealisation of the two-tier precision model described by the design.

- math.sqrt(t ** 2), used by centerOfMass to take a per-axis absolute
  value, is modelled as the absolute value function sqrtSq.

- Fallible constructions (Vector and Particle construction from raw
  inputs, centerOfMass) return Option: none models a raised exception.
-/

/-- Decimal values (Python decimal.Decimal) are modelled as exact
rationals. -/
abbrev Decimal := ℚ

/-- Decimal addition: the + of decimal.Decimal, modelled as exact
rational addition. -/
def decAdd (a b : Decimal) : Decimal := a + b

/-- Decimal division: the / of decimal.Decimal.  Division by zero raises
(DivisionByZero, or InvalidOperation for 0/0), modelled as none. -/
def decDiv (a b : Decimal) : Option Decimal :=
  if b = 0 then none else some (a / b)

/-- Embeds Decimal.from_float(math.sqrt(t ** 2)): squaring followed by a
square root computes the absolute value of t. -/
def sqrtSq (t : Decimal) : Decimal := |t|

/-- The value of a list of ASCII digit characters read in base 10. -/
def digitsVal (ds : List Char) : Nat :=
  ds.foldl (fun a c => a * 10 + (c.toNat - 48)) 0

/-- Parses the optional exponent suffix of a decimal numeral string:
empty input means exponent 0; otherwise the letter e or E followed by an
optionally signed nonempty digit string.  Anything else is rejected. -/
def parseExp : List Char → Option Int
  | [] => some 0
  | c :: rest =>
    if c = 'e' ∨ c = 'E' then
      match rest with
      | '-' :: ds =>
        if ds ≠ [] ∧ ds.all Char.isDigit then some (-(digitsVal ds : Int)) else none
      | '+' :: ds =>
        if ds ≠ [] ∧ ds.all Char.isDigit then some ((digitsVal ds : Int)) else none
      | ds =>
        if ds ≠ [] ∧ ds.all Char.isDigit then some ((digitsVal ds : Int)) else none
    else none

/-- The character-level part of the numeric-string grammar accepted by
the Decimal constructor: an optional sign, then an integer part and/or a
fractional part holding at least one digit between them, then an optional
exponent.  Returns the negative-sign flag, the integer-part digits, the
fractional-part digits and the exponent; a string outside the grammar is
rejected. -/
def parseParts (s : String) : Option (Bool × List Char × List Char × Int) :=
  let cs := s.toList
  let signRest : Bool × List Char :=
    match cs with
    | '-' :: rest => (true, rest)
    | '+' :: rest => (false, rest)
    | rest => (false, rest)
  let ip := signRest.2.takeWhile Char.isDigit
  let rest1 := signRest.2.dropWhile Char.isDigit
  let fpRest : List Char × List Char :=
    match rest1 with
    | '.' :: r => (r.takeWhile Char.isDigit, r.dropWhile Char.isDigit)
    | r => ([], r)
  if ip = [] ∧ fpRest.1 = [] then none
  else
    match parseExp fpRest.2 with
    | none => none
    | some e => some (signRest.1, ip, fpRest.1, e)

/-- Embeds the numeric-string acceptance of the Decimal constructor: the
string is read against the sign/digits/fraction/exponent grammar and its
exact decimal value is produced.  A string outside the grammar makes
Decimal raise InvalidOperation, modelled as none.  (The special strings
producing the non-finite decimals NaN and Infinity, and whitespace and
underscore tolerance, are outside the finite-decimal model.) -/
def parseDecimal (s : String) : Option Decimal :=
  match parseParts s with
  | none => none
  | some (neg, ip, fp, e) =>
    some ((if neg then -1 else 1) * ((digitsVal ip : Decimal)
      + (digitsVal fp : Decimal) / (10 : Decimal) ^ fp.length) * (10 : Decimal) ^ e)

/-- The raw inputs the Vector and Particle constructors accept: integers,
floats (modelled by their exact rational value), and strings. -/
inductive NumInput where
  | ofInt : Int → NumInput
  | ofFloat : Decimal → NumInput
  | ofString : String → NumInput

/-- Embeds the normalisation at the top of Vector.init and Particle.init:
a float goes through Decimal.from_float (exact binary-to-decimal
conversion, identity on the value); an integer or string goes through the
Decimal constructor, which can raise on an unparseable string. -/
def toDecimal : NumInput → Option Decimal
  | NumInput.ofInt n => some (n : Decimal)
  | NumInput.ofFloat q => some q
  | NumInput.ofString s => parseDecimal s

/-- The Vector class: three decimal Cartesian components. -/
structure Vector where
  x : Decimal
  y : Decimal
  z : Decimal
  deriving DecidableEq

/-- VECTOR_ORIGIN_X. -/
def VECTOR_ORIGIN_X : Decimal := 0

/-- VECTOR_ORIGIN_Y. -/
def VECTOR_ORIGIN_Y : Decimal := 0

/-- VECTOR_ORIGIN_Z. -/
def VECTOR_ORIGIN_Z : Decimal := 0

/-- Embeds Vector.init on raw inputs: each component is normalised to a
decimal, and a component that fails to parse raises, modelled as none. -/
def Vector.construct (x y z : NumInput) : Option Vector :=
  match toDecimal x, toDecimal y, toDecimal z with
  | some a, some b, some c => some ⟨a, b, c⟩
  | _, _, _ => none

/-- Embeds Vector.add: the element-wise decimal sum, returned as a new
Vector. -/
def Vector.add (self vector2 : Vector) : Vector :=
  ⟨decAdd self.x vector2.x, decAdd self.y vector2.y, decAdd self.z vector2.z⟩

/-- Real-component vector: the value Vector holds when its components
come from floating-point computation (floats modelled as reals, captured
exactly as decimals by Decimal.from_float). -/
structure RVector where
  x : ℝ
  y : ℝ
  z : ℝ

/-- Embeds Vector.fromCylindrical: x = r cos j, y = r sin j, and the
supplied z is passed to the Vector constructor unchanged. -/
noncomputable def Vector.fromCylindrical (r j z : ℝ) : RVector :=
  ⟨r * Real.cos j, r * Real.sin j, z⟩

/-- Embeds Vector.fromPolar: x = r sin q cos j, y = r sin q sin j,
z = r cos q. -/
noncomputable def Vector.fromPolar (r q j : ℝ) : RVector :=
  ⟨r * Real.sin q * Real.cos j, r * Real.sin q * Real.sin j, r * Real.cos q⟩

/-- Embeds Vector.distance: the component differences are squared and
summed in decimal, and math.sqrt is applied to the total (floating-point
square root modelled as the exact real square root). -/
noncomputable def Vector.distance (vector1 vector2 : Vector) : ℝ :=
  Real.sqrt (((vector2.x - vector1.x) ^ 2 + (vector2.y - vector1.y) ^ 2
    + (vector2.z - vector1.z) ^ 2 : Decimal) : ℝ)

/-- The Particle class: a location Vector and a decimal mass. -/
structure Particle where
  location : Vector
  mass : Decimal
  deriving DecidableEq

/-- Embeds Particle.init: the location is stored as given and the mass
input goes through the Decimal constructor.  There is no sign check. -/
def Particle.construct (locationVector : Vector) (mass : NumInput) : Option Particle :=
  match toDecimal mass with
  | some m => some ⟨locationVector, m⟩
  | none => none

/-- Embeds Particle.combineMasses: a running decimal sum of the masses,
starting from Decimal(0). -/
def Particle.combineMasses (particleList : List Particle) : Decimal :=
  particleList.foldl (fun x particle => decAdd x particle.mass) 0

/-- Embeds Particle.centerOfMass: for each axis, the per-particle
distance from the origin along that axis (math.sqrt of a square, i.e. an
absolute value) is weighted by the particle mass and summed in decimal;
each axis total is divided by the combined mass.  The divisions raise
when the combined mass is zero, modelled as none. -/
def Particle.centerOfMass (particleList : List Particle) : Option Vector :=
  let massesCombined := Particle.combineMasses particleList
  let op1x := particleList.foldl
    (fun acc particle =>
      decAdd acc (sqrtSq (VECTOR_ORIGIN_X - particle.location.x) * particle.mass)) 0
  let op1y := particleList.foldl
    (fun acc particle =>
      decAdd acc (sqrtSq (VECTOR_ORIGIN_Y - particle.location.y) * particle.mass)) 0
  let op1z := particleList.foldl
    (fun acc particle =>
      decAdd acc (sqrtSq (VECTOR_ORIGIN_Z - particle.location.z) * particle.mass)) 0
  match decDiv op1x massesCombined, decDiv op1y massesCombined, decDiv op1z massesCombined with
  | some comX, some comY, some comZ => some ⟨comX, comY, comZ⟩
  | _, _, _ => none

/-- A left fold that adds a function of each element is the starting
value plus the sum of the mapped list. -/
theorem foldl_decAdd_eq (g : Particle → Decimal) :
    ∀ (l : List Particle) (a : Decimal),
      List.foldl (fun acc p => decAdd acc (g p)) a l = a + (l.map g).sum
  | [], a => by simp [decAdd]
  | p :: l, a => by
    rw [List.foldl_cons, foldl_decAdd_eq g l (decAdd a (g p))]
    simp [decAdd]
    ring

/-- combineMasses is the sum of the mass projections. -/
theorem combineMasses_eq_sum (l : List Particle) :
    Particle.combineMasses l = (l.map Particle.mass).sum := by
  have h := foldl_decAdd_eq Particle.mass l 0
  simpa [Particle.combineMasses] using h

/-- When the combined mass is nonzero, centerOfMass returns the vector
whose coordinate on each axis is the sum over the particles of mass times
the absolute value of (origin coordinate minus position coordinate),
divided by the combined mass. -/
theorem centerOfMass_eq (l : List Particle) (hM : Particle.combineMasses l ≠ 0) :
    Particle.centerOfMass l = some
      { x := (l.map (fun p => p.mass * |VECTOR_ORIGIN_X - p.location.x|)).sum
              / Particle.combineMasses l,
        y := (l.map (fun p => p.mass * |VECTOR_ORIGIN_Y - p.location.y|)).sum
              / Particle.combineMasses l,
        z := (l.map (fun p => p.mass * |VECTOR_ORIGIN_Z - p.location.z|)).sum
              / Particle.combineMasses l } := by
  unfold Particle.centerOfMass
  rw [foldl_decAdd_eq (fun p => sqrtSq (VECTOR_ORIGIN_X - p.location.x) * p.mass) l 0,
    foldl_decAdd_eq (fun p => sqrtSq (VECTOR_ORIGIN_Y - p.location.y) * p.mass) l 0,
    foldl_decAdd_eq (fun p => sqrtSq (VECTOR_ORIGIN_Z - p.location.z) * p.mass) l 0]
  simp [decDiv, hM, sqrtSq, mul_comm]

/-- C1: for every non-empty particle list whose total mass is positive,
centerOfMass returns the Vector whose coordinate on each of the three
axes equals the sum over the particles of mass times the absolute value
of (origin coordinate minus position coordinate), divided by the total
mass, with the origin fixed at zero on every axis. -/
theorem centerOfMass_formula (l : List Particle) (hne : l ≠ [])
    (hM : 0 < Particle.combineMasses l) :
    Particle.centerOfMass l = some
      { x := (l.map (fun p => p.mass * |VECTOR_ORIGIN_X - p.location.x|)).sum
              / Particle.combineMasses l,
        y := (l.map (fun p => p.mass * |VECTOR_ORIGIN_Y - p.location.y|)).sum
              / Particle.combineMasses l,
        z := (l.map (fun p => p.mass * |VECTOR_ORIGIN_Z - p.location.z|)).sum
              / Particle.combineMasses l } :=
  centerOfMass_eq l (ne_of_gt hM)

/-- C1 witness: on the two particles at (2,0,0) and (-2,0,0), each of
mass 1, centerOfMass yields Vector(2, 0, 0) per the non-signed formula,
not the textbook (0,0,0). -/
theorem centerOfMass_formula_witness :
    Particle.centerOfMass [⟨⟨2, 0, 0⟩, 1⟩, ⟨⟨-2, 0, 0⟩, 1⟩] = some ⟨2, 0, 0⟩ := by
  rw [centerOfMass_formula [⟨⟨2, 0, 0⟩, 1⟩, ⟨⟨-2, 0, 0⟩, 1⟩] (by simp)
    (by norm_num [Particle.combineMasses, decAdd])]
  norm_num [Particle.combineMasses, decAdd,
    VECTOR_ORIGIN_X, VECTOR_ORIGIN_Y, VECTOR_ORIGIN_Z]

/-- C2: for every particle list of total mass zero (the empty list, or
every mass equal to zero), centerOfMass fails with a division error
rather than returning any Vector. -/
theorem centerOfMass_zero_total_mass_fails (l : List Particle)
    (h : l = [] ∨ ∀ p ∈ l, p.mass = 0) :
    Particle.centerOfMass l = none := by
  have hM : Particle.combineMasses l = 0 := by
    rcases h with rfl | h
    · rfl
    · rw [combineMasses_eq_sum]
      apply List.sum_eq_zero
      intro x hx
      obtain ⟨p, hp, rfl⟩ := List.mem_map.mp hx
      exact h p hp
  unfold Particle.centerOfMass
  simp [decDiv, hM]

/-- C2 witness: centerOfMass of the empty particle list fails. -/
theorem centerOfMass_zero_total_mass_fails_witness :
    Particle.centerOfMass [] = none :=
  centerOfMass_zero_total_mass_fails [] (Or.inl rfl)

/-- C3: fromCylindrical returns the vector with x = r cos j, y = r sin j,
and the supplied z passed through unchanged; in particular with r = 1,
angle 0 and z = 5 it yields Vector(1, 0, 5). -/
theorem fromCylindrical_passes_z_through :
    (∀ r j z : ℝ, Vector.fromCylindrical r j z
      = ⟨r * Real.cos j, r * Real.sin j, z⟩) ∧
    Vector.fromCylindrical 1 0 5 = ⟨1, 0, 5⟩ := by
  constructor
  · intro r j z
    rfl
  · unfold Vector.fromCylindrical
    simp

/-- C4 counterexample: constructing a Particle with mass -1 does not
fail; it succeeds and stores the negative mass. -/
theorem particle_negative_mass_accepted :
    Particle.construct ⟨0, 0, 0⟩ (NumInput.ofInt (-1))
      = some ⟨⟨0, 0, 0⟩, -1⟩ := by
  norm_num [Particle.construct, toDecimal]

/-- C4 amended: Particle construction performs no mass validation: for
every position vector and every mass input that parses to a negative
decimal, construction succeeds and stores the negative mass unchanged;
negative-mass rejection happens only in the caller, before construction. -/
theorem particle_construct_stores_negative_mass (v : Vector) (m : NumInput)
    (q : Decimal) (hq : toDecimal m = some q) (hneg : q < 0) :
    Particle.construct v m = some ⟨v, q⟩ := by
  simp [Particle.construct, hq]

/-- C4 amended witness: mass -2 is stored unchanged. -/
theorem particle_construct_stores_negative_mass_witness :
    Particle.construct ⟨0, 0, 0⟩ (NumInput.ofInt (-2)) = some ⟨⟨0, 0, 0⟩, -2⟩ :=
  particle_construct_stores_negative_mass ⟨0, 0, 0⟩ (NumInput.ofInt (-2)) (-2)
    (by norm_num [toDecimal]) (by norm_num)

/-- C5: combineMasses returns the same decimal total on every permutation
of a particle list, and the decimal addition it uses is associative and
commutative to full precision. -/
theorem combineMasses_order_independent :
    (∀ l1 l2 : List Particle, l1.Perm l2 →
      Particle.combineMasses l1 = Particle.combineMasses l2) ∧
    (∀ a b c : Decimal, decAdd (decAdd a b) c = decAdd a (decAdd b c)) ∧
    (∀ a b : Decimal, decAdd a b = decAdd b a) := by
  refine ⟨fun l1 l2 hp => ?_, fun a b c => ?_, fun a b => ?_⟩
  · rw [combineMasses_eq_sum, combineMasses_eq_sum]
    exact List.Perm.sum_eq (List.Perm.map Particle.mass hp)
  · simp [decAdd, add_assoc]
  · simp [decAdd, add_comm]

/-- C5 witness: swapping two concrete particles leaves the combined mass
unchanged. -/
theorem combineMasses_order_independent_witness :
    Particle.combineMasses [⟨⟨1, 0, 0⟩, 2⟩, ⟨⟨0, 1, 0⟩, 3⟩]
      = Particle.combineMasses [⟨⟨0, 1, 0⟩, 3⟩, ⟨⟨1, 0, 0⟩, 2⟩] :=
  combineMasses_order_independent.1 _ _ (List.Perm.swap _ _ _)

/-- C6: if any of the three components cannot be parsed as a number,
Vector construction fails; and whenever it succeeds, every component of
the resulting Vector is exactly the parsed decimal value of the
corresponding input, never a defaulted or coerced value. -/
theorem vector_construct_invalid_number (x y z : NumInput) :
    ((toDecimal x = none ∨ toDecimal y = none ∨ toDecimal z = none) →
      Vector.construct x y z = none) ∧
    (∀ v : Vector, Vector.construct x y z = some v →
      ∃ a b c, toDecimal x = some a ∧ toDecimal y = some b ∧ toDecimal z = some c
        ∧ v = ⟨a, b, c⟩) := by
  cases hx : toDecimal x <;> cases hy : toDecimal y <;> cases hz : toDecimal z <;>
    simp [Vector.construct, hx, hy, hz]

/-- C6 witness: the unparseable component string abc makes Vector
construction fail. -/
theorem vector_construct_invalid_number_witness :
    Vector.construct (NumInput.ofString "abc") (NumInput.ofInt 0) (NumInput.ofInt 0)
      = none :=
  (vector_construct_invalid_number (NumInput.ofString "abc")
      (NumInput.ofInt 0) (NumInput.ofInt 0)).1
    (Or.inl (by
      have h : parseParts "abc" = none := by decide
      simp [toDecimal, parseDecimal, h]))

/-- C7: Vector addition is commutative, component-wise exactly. -/
theorem vector_add_comm (a b : Vector) : Vector.add a b = Vector.add b a := by
  simp [Vector.add, decAdd, Vector.mk.injEq]
  exact ⟨add_comm a.x b.x, add_comm a.y b.y, add_comm a.z b.z⟩

/-- C8: the distance computation is symmetric in its two arguments. -/
theorem distance_symm (a b : Vector) : Vector.distance a b = Vector.distance b a := by
  unfold Vector.distance
  congr 1
  push_cast
  ring

/-- C9: a float input is converted to a decimal by exact binary-to-decimal
conversion, preserving its value bit for bit; in particular the Vector
constructed from the float 3.0 equals the Vector constructed from the
decimal text 3. -/
theorem float_conversion_exact :
    (∀ q : Decimal, toDecimal (NumInput.ofFloat q) = some q) ∧
    Vector.construct (NumInput.ofFloat 3) (NumInput.ofInt 0) (NumInput.ofInt 0)
      = Vector.construct (NumInput.ofString "3") (NumInput.ofInt 0) (NumInput.ofInt 0) := by
  constructor
  · intro q
    rfl
  · have h : parseParts "3" = some (false, ['3'], [], 0) := by decide
    have hd : digitsVal ['3'] = 3 := by decide
    have hd0 : digitsVal [] = 0 := by decide
    simp [Vector.construct, toDecimal, parseDecimal, h, hd, hd0]

/-- C10: for every particle list whose masses are all non-negative and
whose total mass is positive, every component of the Vector returned by
centerOfMass is non-negative. -/
theorem centerOfMass_components_nonneg (l : List Particle) (v : Vector)
    (hm : ∀ p ∈ l, 0 ≤ p.mass) (hM : 0 < Particle.combineMasses l)
    (hv : Particle.centerOfMass l = some v) :
    0 ≤ v.x ∧ 0 ≤ v.y ∧ 0 ≤ v.z := by
  rw [centerOfMass_eq l (ne_of_gt hM)] at hv
  have hv2 := Option.some.inj hv
  subst hv2
  refine ⟨div_nonneg ?_ hM.le, div_nonneg ?_ hM.le, div_nonneg ?_ hM.le⟩ <;>
  · apply List.sum_nonneg
    intro a ha
    obtain ⟨p, hp, rfl⟩ := List.mem_map.mp ha
    exact mul_nonneg (hm p hp) (abs_nonneg _)

/-- C10 witness: the single particle at (-3, 4, -5) of mass 2 yields the
center-of-mass vector (3, 4, 5), whose components are non-negative. -/
theorem centerOfMass_components_nonneg_witness :
    0 ≤ (⟨3, 4, 5⟩ : Vector).x ∧ 0 ≤ (⟨3, 4, 5⟩ : Vector).y
      ∧ 0 ≤ (⟨3, 4, 5⟩ : Vector).z :=
  centerOfMass_components_nonneg [⟨⟨-3, 4, -5⟩, 2⟩] ⟨3, 4, 5⟩
    (by norm_num)
    (by norm_num [Particle.combineMasses, decAdd])
    (by norm_num [Particle.centerOfMass, Particle.combineMasses, decAdd, decDiv,
      sqrtSq, VECTOR_ORIGIN_X, VECTOR_ORIGIN_Y, VECTOR_ORIGIN_Z])
